import Mathlib

namespace FROG

/-! Shallow embedding of the acquisition engine of
`src/bata/FROG_Measure_GUI_ver.2.0.py` (the `MeasurementWorker` thread and the
module-level helpers `move_stage_and_wait` and `get_position`), together with
`calculate_dt` from `src/FROG_Ver3.0.py` and
`SpectrometerController.set_integration_time` from
`src/bata/FROG_Ver3.1_refactored.py`.

Serial I/O is modelled by explicit response oracles: a stage poll response is
`Option String` (`none` = an I/O exception on write/readline), intensities and
wavelengths are rational vectors, and wall-clock sleeps are recorded only as
the constants the code passes to them. -/

/-! ### Stage link: `move_stage_and_wait` (lines 28-56) -/

inductive MoveOutcome where
  | success
  | timeout
  | commFailure
  deriving DecidableEq

/-- Command string written by `ser.write(cmd1.encode(...))`: `AXIs1:Fspeed0 {fspeed}\r`. -/
def speedCmd (fspeed : ℕ) : String := "AXIs1:Fspeed0 " ++ toString fspeed ++ "\r"

/-- Command string written by `ser.write(cmd2.encode(...))`: `AXIs1:PULS {pulses}:GO {direction}\r`. -/
def pulseMoveCmd (pulses direction : ℕ) : String :=
  "AXIs1:PULS " ++ toString pulses ++ ":GO " ++ toString direction ++ "\r"

/-- The motion-status query written at each poll. -/
def motionQuery : String := "AXIs1:MOTION?\r"

/-- Poll bound: `for _ in range(120)`. -/
def maxPolls : ℕ := 120

/-- Sleep between polls: `time.sleep(0.1)`, i.e. 100 ms. -/
def pollIntervalMs : ℕ := 100

/-- The poll loop of `move_stage_and_wait`: at attempt `j` the controller answers
`resp j` (`none` models a serial exception on the query write or readline,
`some s` the decoded line after `.strip()`, which the code applies at the
readline site).  The loop stops with `success` on the line `"0"`, with
`commFailure` on an exception, and with `timeout` when the fuel (`maxPolls`)
is exhausted. -/
def pollMotion (resp : ℕ → Option String) : ℕ → ℕ → MoveOutcome
  | _, 0 => .timeout
  | j, fuel + 1 =>
    match resp j with
    | none => .commFailure
    | some s => if s = "0" then .success else pollMotion resp (j + 1) fuel

/-- Number of poll attempts actually made (for the write trace). -/
def pollCount (resp : ℕ → Option String) : ℕ → ℕ → ℕ
  | _, 0 => 0
  | j, fuel + 1 =>
    match resp j with
    | none => 1
    | some s => if s = "0" then 1 else pollCount resp (j + 1) fuel + 1

structure MoveCall where
  outcome : MoveOutcome
  writes : List String
  deriving DecidableEq

/-- `move_stage_and_wait(ser, fspeed, pulses, direction, ...)`: writes the
speed-set and pulse-move commands, then polls `AXIs1:MOTION?` up to 120 times.
`cmdFail = true` models a serial exception already on the two command writes. -/
def move_stage_and_wait (fspeed pulses direction : ℕ) (cmdFail : Bool)
    (resp : ℕ → Option String) : MoveCall :=
  if cmdFail then
    { outcome := .commFailure, writes := [] }
  else
    { outcome := pollMotion resp 0 maxPolls
      writes := [speedCmd fspeed, pulseMoveCmd pulses direction]
        ++ List.replicate (pollCount resp 0 maxPolls) motionQuery }

/-! ### `MeasurementWorker.get_position` (lines 87-93) -/

/-- Value of one decimal digit, as used by Python's `int()` on each character. -/
def digitVal (c : Char) : Option ℕ := if c.isDigit then some (c.toNat - 48) else none

/-- Decimal parse of a digit string; `none` on an empty string or any
non-digit character (where Python's `int()` raises `ValueError`). -/
def parseNatChars : List Char → Option ℕ
  | [] => none
  | l =>
    l.foldl
      (fun acc c =>
        match acc, digitVal c with
        | some n, some d => some (n * 10 + d)
        | _, _ => none)
      (some 0)

/-- Executable model of Python's `int(s)` on an already-stripped string. -/
def parseInt (s : String) : Option Int :=
  match s.data with
  | '-' :: rest => (parseNatChars rest).map (fun n => -(n : Int))
  | '+' :: rest => (parseNatChars rest).map (fun n => (n : Int))
  | l => (parseNatChars l).map (fun n => (n : Int))

/-- `get_position`: sends `AXIs1:POS?`, strips and `int()`-parses the reply;
any exception (I/O error = `none`, or a non-numeric reply) yields `None`. -/
def get_position (resp : Option String) : Option Int :=
  match resp with
  | none => none
  | some s => parseInt s

/-- The sentinel the worker emits when `get_position` returned `None`
(`self.posUpdated.emit(cur_pos if cur_pos is not None else -999999)`). -/
def posSentinel : Int := -999999

/-! ### `calculate_dt` (src/FROG_Ver3.0.py lines 32-35); the identical
expression appears inline in `FROG_GUI.start_measurement` (ver.2.0 line 707). -/

/-- `dt = 2 * step_size * 10**(-6) / c * 10**15` with `c = 299792458`. -/
def calculate_dt (step_size : ℕ) : ℚ :=
  2 * step_size * (1 / 10 ^ 6) / 299792458 * 10 ^ 15

/-! ### `SpectrometerController.set_integration_time`
(src/bata/FROG_Ver3.1_refactored.py lines 123-124): the microsecond value the
refactored controller passes to `integration_time_micros`. -/

def set_integration_time (integration_time_ms : ℕ) : ℕ := integration_time_ms * 1000

/-- The microsecond value ver.2.0's worker passes to `integration_time_micros`
at line 151: the raw `integration_time_ms` number, not multiplied by 1000. -/
def configuredExposureMicros (integration_time_ms : ℕ) : ℕ := integration_time_ms

/-! ### `MeasurementWorker.run` (lines 95-190) -/

/-- Leading raw samples discarded from wavelengths and intensities
(`[1002:]` slicing in the code). -/
def leadOffset : ℕ := 1002

/-- One emission through `logSignal`/`log_to_file` made by `run` or by the
`move_stage_and_wait` callbacks it installs, keyed by the message identity in
the code (one constructor per distinct message site). -/
inductive LogEvent where
  | savePath
  | userInterrupted
  | moveStart (i : ℕ)
  | moveStop (i : ℕ)
  | moveTimeout (i : ℕ)
  | moveExc (i : ℕ)
  | moveFailedAbort
  | measureStart (i : ℕ)
  | bgSubtracted (i : ℕ)
  | measureEnd (i : ℕ)
  | finMsg
  | errMsg
  deriving DecidableEq

/-- Run state in the specification's terms, mapped onto the code's control
paths: the cancel `break` is `cancelled`, the move-failure `break` is
`failed`, falling off the loop is `completed`, and an exception escaping into
the `except` handler at line 186 is `errored`. -/
inductive Status where
  | running
  | completed
  | cancelled
  | failed
  | errored
  deriving DecidableEq

/-- One recorded capture: an entry of `y_mat` (and the matching row written to
the row-major file). -/
structure Frame where
  index : ℕ
  delay : ℚ
  intensities : List ℚ
  maxInt : ℚ
  deriving DecidableEq

/-- The environment of one run: parameters, device oracles, and the
cancellation flag as observed at the top of each loop iteration. -/
structure Env where
  step_size : ℕ
  range_input : ℕ
  integration_time_ms : ℕ
  fspeed : ℕ
  bg_data : Option (List ℚ)
  raw_wavelengths : List ℚ
  rawCapture : ℕ → List ℚ
  moveCmdFail : ℕ → Bool
  movePolls : ℕ → ℕ → Option String
  posRaw : ℕ → Option String
  finalPosRaw : Option String
  stopAt : ℕ → Bool

/-- `loop_num = range_input // step_size`. -/
def Env.loop_num (e : Env) : ℕ := e.range_input / e.step_size

/-- `wavelengths = self.spectrometer.wavelengths()[1002:]`, queried once. -/
def Env.wavelengths (e : Env) : List ℚ := e.raw_wavelengths.drop leadOffset

/-- `n_wl = len(wavelengths)`. -/
def Env.n_wl (e : Env) : ℕ := e.wavelengths.length

/-- `dt`, computed once by the caller (`start_measurement`, line 707) with the
same expression as `calculate_dt`. -/
def Env.dt (e : Env) : ℚ := calculate_dt e.step_size

/-- `t_axis = [i * dt for i in range(loop_num)]`. -/
def Env.t_axis (e : Env) : List ℚ :=
  (List.range e.loop_num).map (fun i => (i : ℚ) * e.dt)

/-- Background subtraction (lines 154-158): subtract element-wise exactly when
a background is present and the lengths agree; the Bool records whether the
`BG減算` log message was emitted. -/
def applyBG (bg : Option (List ℚ)) (y : List ℚ) : List ℚ × Bool :=
  match bg with
  | none => (y, false)
  | some b => if y.length = b.length then (List.zipWith (· - ·) y b, true) else (y, false)

/-- `np.nanmax` on a nonempty rational vector (no NaNs in the model). -/
def listMax : List ℚ → ℚ
  | [] => 0
  | x :: xs => xs.foldl max x

/-- The vector the worker stores for step `i`: the capture after the `[1002:]`
slice and the optional background subtraction. -/
def liveVec (e : Env) (i : ℕ) : List ℚ :=
  (applyBG e.bg_data ((e.rawCapture i).drop leadOffset)).1

/-- The frame recorded for step `i`
(`SpectralFrame(i, t_axis[i], y, max_int)` in the spec's terms). -/
def expFrame (e : Env) (i : ℕ) : Frame :=
  { index := i
    delay := (i : ℚ) * e.dt
    intensities := liveVec e i
    maxInt := listMax (liveVec e i) }

/-- Mutable state of the measurement loop. -/
structure LoopSt where
  status : Status
  frames : List Frame
  txtRows : List Frame
  posEvents : List Int
  progress : List ℕ
  setMicros : List ℕ
  logs : List LogEvent
  deriving DecidableEq

/-- State before the loop: the save-path message has been logged and both
headers written. -/
def initSt : LoopSt :=
  { status := .running, frames := [], txtRows := [], posEvents := [],
    progress := [], setMicros := [], logs := [.savePath] }

/-- Whether the `BG減算` message is emitted at step `i` (background present and
of matching length). -/
def bgApplied (e : Env) (i : ℕ) : Bool :=
  (applyBG e.bg_data ((e.rawCapture i).drop leadOffset)).2

/-- Lines 145-173: position read and emit, capture, background subtraction,
max, row write, frame append, progress emit.  `np.nanmax` on an empty vector
and the `data2d[i, :] = y` shape check raise, sending the run to the
exception handler (`errored`). -/
def captureStep (e : Env) (i : ℕ) (st : LoopSt) : LoopSt :=
  let y := liveVec e i
  let st1 : LoopSt :=
    { st with
      posEvents := st.posEvents ++ [(get_position (e.posRaw i)).getD posSentinel]
      setMicros := st.setMicros ++ [configuredExposureMicros e.integration_time_ms]
      logs := st.logs ++ [.measureStart i]
        ++ (if bgApplied e i then [LogEvent.bgSubtracted i] else []) }
  if y = [] then { st1 with status := .errored }
  else
    let st2 : LoopSt := { st1 with logs := st1.logs ++ [.measureEnd i] }
    if y.length = e.n_wl then
      { st2 with
        frames := st2.frames ++ [expFrame e i]
        txtRows := st2.txtRows ++ [expFrame e i]
        progress := st2.progress ++ [(i + 1) * 100 / e.loop_num] }
    else { st2 with status := .errored }

/-- One iteration of `for i in range(loop_num)` (lines 128-173): cancellation
check, stage move for `i > 0`, then the capture body. -/
def stepOnce (e : Env) (i : ℕ) (st : LoopSt) : LoopSt :=
  if e.stopAt i then
    { st with status := .cancelled, logs := st.logs ++ [.userInterrupted] }
  else if i = 0 then captureStep e i st
  else
    match (move_stage_and_wait e.fspeed e.step_size 0 (e.moveCmdFail i) (e.movePolls i)).outcome with
    | .success => captureStep e i { st with logs := st.logs ++ [.moveStart i, .moveStop i] }
    | .timeout =>
      { st with status := .failed
                logs := st.logs ++ [.moveStart i, .moveTimeout i, .moveFailedAbort] }
    | .commFailure =>
      { st with status := .failed
                logs := st.logs ++ [.moveStart i, .moveExc i, .moveFailedAbort] }

/-- The loop itself: run `fuel` further iterations starting at index `i`,
stopping early when an iteration leaves `running` (break or exception). -/
def runSteps (e : Env) : ℕ → ℕ → LoopSt → LoopSt
  | _, 0, st => st
  | i, fuel + 1, st =>
    let st1 := stepOnce e i st
    match st1.status with
    | .running => runSteps e (i + 1) fuel st1
    | _ => st1

/-- The column-major (csv) rows written at lines 174-179: one row per
wavelength, carrying that wavelength's intensity in every recorded frame
(`y_mat` transposed). -/
def csvOf (wls : List ℚ) (frames : List Frame) : List (ℚ × List ℚ) :=
  (List.range wls.length).map
    (fun iw => (wls.getD iw 0, frames.map (fun fr => fr.intensities.getD iw 0)))

/-- Final result of `run`: the loop state plus everything produced after the
loop (csv body, final position event, terminal log / signals, file closure). -/
structure RunResult extends LoopSt where
  csvRows : List (ℚ × List ℚ)
  csvHeader : List ℚ
  txtHeader : List ℚ
  filesClosed : Bool
  dataSaved : Bool
  finishedEmitted : Bool
  deriving DecidableEq

/-- Lines 174-190: on a non-exception exit write the csv body (only when at
least one frame exists), re-read and report the position, log completion and
emit `dataSaved`; on an exception only the error log runs.  The `with` block
closes both files on every path, and `finished` is always emitted last. -/
def finishRun (e : Env) (st : LoopSt) : RunResult :=
  if st.status = .errored then
    { toLoopSt := { st with logs := st.logs ++ [.errMsg] }
      csvRows := []
      csvHeader := e.t_axis
      txtHeader := e.wavelengths
      filesClosed := true
      dataSaved := false
      finishedEmitted := true }
  else
    { toLoopSt :=
        { st with
          posEvents := st.posEvents ++ [(get_position e.finalPosRaw).getD posSentinel]
          logs := st.logs ++ [.finMsg]
          status := if st.status = .running then .completed else st.status }
      csvRows := if st.frames.isEmpty then [] else csvOf e.wavelengths st.frames
      csvHeader := e.t_axis
      txtHeader := e.wavelengths
      filesClosed := true
      dataSaved := true
      finishedEmitted := true }

/-- `MeasurementWorker.run` end to end. -/
def workerRun (e : Env) : RunResult :=
  finishRun e (runSteps e 0 e.loop_num initSt)

/-! ### A normally completing step, and the state after a run of such steps -/

/-- Step `i` proceeds without break or exception: the cancel flag is unset,
the move (for `i > 0`) succeeds, and the stored vector is nonempty and of the
wavelength-axis length. -/
def goodStep (e : Env) (i : ℕ) : Prop :=
  e.stopAt i = false
    ∧ (i = 0 ∨ (move_stage_and_wait e.fspeed e.step_size 0 (e.moveCmdFail i) (e.movePolls i)).outcome = .success)
    ∧ liveVec e i ≠ []
    ∧ (liveVec e i).length = e.n_wl

instance (e : Env) (i : ℕ) : Decidable (goodStep e i) := by
  unfold goodStep; infer_instance

/-- The log events a normally completing step `i` emits, in order. -/
def stepLogs (e : Env) (i : ℕ) : List LogEvent :=
  (if i = 0 then [] else [.moveStart i, .moveStop i])
    ++ [.measureStart i]
    ++ (if bgApplied e i then [.bgSubtracted i] else [])
    ++ [.measureEnd i]

/-- Loop state after `n` normally completed steps. -/
def normalState (e : Env) (n : ℕ) : LoopSt :=
  { status := .running
    frames := (List.range n).map (expFrame e)
    txtRows := (List.range n).map (expFrame e)
    posEvents := (List.range n).map (fun j => (get_position (e.posRaw j)).getD posSentinel)
    progress := (List.range n).map (fun j => (j + 1) * 100 / e.loop_num)
    setMicros := (List.range n).map (fun _ => configuredExposureMicros e.integration_time_ms)
    logs := .savePath :: ((List.range n).map (stepLogs e)).flatten }

lemma stepOnce_good (e : Env) (i : ℕ) (st : LoopSt) (h : goodStep e i) :
    stepOnce e i st =
      { st with
        frames := st.frames ++ [expFrame e i]
        txtRows := st.txtRows ++ [expFrame e i]
        posEvents := st.posEvents ++ [(get_position (e.posRaw i)).getD posSentinel]
        progress := st.progress ++ [(i + 1) * 100 / e.loop_num]
        setMicros := st.setMicros ++ [configuredExposureMicros e.integration_time_ms]
        logs := st.logs ++ stepLogs e i } := by
  obtain ⟨h1, h2, h3, h4⟩ := h
  rcases Nat.eq_zero_or_pos i with hi | hi
  · subst hi
    simp only [stepOnce, h1, Bool.false_eq_true, if_false, if_pos rfl]
    simp only [captureStep, stepLogs, if_pos rfl, if_neg h3, if_pos h4]
    simp [List.append_assoc]
  · have hi0 : i ≠ 0 := Nat.pos_iff_ne_zero.mp hi
    have hmv := h2.resolve_left hi0
    simp only [stepOnce, h1, Bool.false_eq_true, if_false, if_neg hi0, hmv]
    simp only [captureStep, stepLogs, if_neg hi0, if_neg h3, if_pos h4]
    simp [List.append_assoc]

lemma normalState_zero (e : Env) : normalState e 0 = initSt := by
  simp [normalState, initSt]

lemma stepOnce_normal (e : Env) (n : ℕ) (h : goodStep e n) :
    stepOnce e n (normalState e n) = normalState e (n + 1) := by
  rw [stepOnce_good e n _ h]
  simp [normalState, List.range_succ]

/-! ### Behaviour of the poll loop -/

lemma pollMotion_timeout (resp : ℕ → Option String) :
    ∀ fuel j, (∀ p, j ≤ p → p < j + fuel → ∃ s, resp p = some s ∧ s ≠ "0") →
      pollMotion resp j fuel = .timeout := by
  intro fuel
  induction fuel with
  | zero => intro j _; rfl
  | succ fuel ih =>
    intro j h
    obtain ⟨s, hs, hs0⟩ := h j (Nat.le_refl j) (by omega)
    simp only [pollMotion, hs, if_neg hs0]
    exact ih (j + 1) (fun p hp1 hp2 => h p (by omega) (by omega))

lemma pollMotion_success_iff (resp : ℕ → Option String) :
    ∀ fuel j, pollMotion resp j fuel = .success ↔
      ∃ q < fuel, resp (j + q) = some "0" ∧ ∀ p < q, ∃ s, resp (j + p) = some s ∧ s ≠ "0" := by
  intro fuel
  induction fuel with
  | zero =>
    intro j
    simp only [pollMotion]
    constructor
    · intro h; cases h
    · rintro ⟨q, hq, -, -⟩; omega
  | succ fuel ih =>
    intro j
    cases hresp : resp j with
    | none =>
      simp only [pollMotion, hresp]
      constructor
      · intro h; cases h
      · rintro ⟨q, hq, h0, hall⟩
        cases q with
        | zero => rw [Nat.add_zero] at h0; rw [hresp] at h0; cases h0
        | succ q =>
          obtain ⟨s, hs, -⟩ := hall 0 (Nat.succ_pos q)
          rw [Nat.add_zero] at hs; rw [hresp] at hs; cases hs
    | some s =>
      by_cases hs0 : s = "0"
      · subst hs0
        simp only [pollMotion, hresp, if_pos rfl]
        constructor
        · intro _
          exact ⟨0, Nat.succ_pos fuel, by rw [Nat.add_zero]; exact hresp, by intro p hp; omega⟩
        · intro _; rfl
      · simp only [pollMotion, hresp, if_neg hs0]
        rw [ih (j + 1)]
        constructor
        · rintro ⟨q, hq, h0, hall⟩
          refine ⟨q + 1, by omega, by rw [show j + (q + 1) = j + 1 + q by omega]; exact h0, ?_⟩
          intro p hp
          cases p with
          | zero => exact ⟨s, by rw [Nat.add_zero]; exact hresp, hs0⟩
          | succ p =>
            obtain ⟨t, ht, ht0⟩ := hall p (by omega)
            exact ⟨t, by rw [show j + (p + 1) = j + 1 + p by omega]; exact ht, ht0⟩
        · rintro ⟨q, hq, h0, hall⟩
          cases q with
          | zero => rw [Nat.add_zero, hresp] at h0; cases h0; exact absurd rfl hs0
          | succ q =>
            refine ⟨q, by omega, by rw [show j + 1 + q = j + (q + 1) by omega]; exact h0, ?_⟩
            intro p hp
            obtain ⟨t, ht, ht0⟩ := hall (p + 1) (by omega)
            exact ⟨t, by rw [show j + 1 + p = j + (p + 1) by omega]; exact ht, ht0⟩

lemma pollMotion_commFailure (resp : ℕ → Option String) :
    ∀ fuel j q, q < fuel → resp (j + q) = none →
      (∀ p < q, ∃ s, resp (j + p) = some s ∧ s ≠ "0") →
      pollMotion resp j fuel = .commFailure := by
  intro fuel
  induction fuel with
  | zero => intro j q hq; omega
  | succ fuel ih =>
    intro j q hq hnone hall
    cases q with
    | zero =>
      rw [Nat.add_zero] at hnone
      simp only [pollMotion, hnone]
    | succ q =>
      obtain ⟨s, hs, hs0⟩ := hall 0 (Nat.succ_pos q)
      rw [Nat.add_zero] at hs
      simp only [pollMotion, hs, if_neg hs0]
      refine ih (j + 1) q (by omega) (by rw [show j + 1 + q = j + (q + 1) by omega]; exact hnone) ?_
      intro p hp
      obtain ⟨t, ht, ht0⟩ := hall (p + 1) (by omega)
      exact ⟨t, by rw [show j + 1 + p = j + (p + 1) by omega]; exact ht, ht0⟩

lemma pollCount_le (resp : ℕ → Option String) :
    ∀ fuel j, pollCount resp j fuel ≤ fuel := by
  intro fuel
  induction fuel with
  | zero => intro j; exact Nat.le_refl 0
  | succ fuel ih =>
    intro j
    cases h : resp j with
    | none => simp [pollCount, h]
    | some s =>
      by_cases hs : s = "0"
      · simp [pollCount, h, hs]
      · simp only [pollCount, h, if_neg hs]
        have := ih (j + 1)
        omega

lemma runSteps_normal (e : Env) (n : ℕ) (hg : ∀ j < n, goodStep e j) :
    ∀ fuel, n ≤ fuel →
      runSteps e 0 fuel initSt = runSteps e n (fuel - n) (normalState e n) := by
  induction n with
  | zero => intro fuel _; simp [normalState_zero]
  | succ n ih =>
    intro fuel hle
    have hn : n < fuel := Nat.lt_of_lt_of_le (Nat.lt_succ_self n) hle
    rw [ih (fun j hj => hg j (Nat.lt_succ_of_lt hj)) fuel (Nat.le_of_lt hn)]
    have hk : fuel - n = (fuel - (n + 1)) + 1 := by omega
    rw [hk]
    show (let st1 := stepOnce e n (normalState e n);
      match st1.status with
      | .running => runSteps e (n + 1) (fuel - (n + 1)) st1
      | _ => st1) = _
    rw [stepOnce_normal e n (hg n (Nat.lt_succ_self n))]
    rfl

/-! ### Structural invariants of the loop state -/

/-- Invariant holding after any number of iterations with next index `i`:
every recorded frame has the axis length, carries its step index times `dt`
as delay, indices are strictly increasing and below `i`, the frame count is
at most `i`, and the row-major rows mirror the frames exactly. -/
def FramesOK (e : Env) (i : ℕ) (st : LoopSt) : Prop :=
  st.frames.length ≤ i
    ∧ (∀ fr ∈ st.frames,
        fr.intensities.length = e.n_wl ∧ fr.index < i ∧ fr.delay = (fr.index : ℚ) * e.dt)
    ∧ st.frames.Pairwise (fun a b => a.index < b.index)
    ∧ st.txtRows = st.frames

lemma framesOK_mono (e : Env) {i i' : ℕ} (h : i ≤ i') {st : LoopSt} :
    FramesOK e i st → FramesOK e i' st := by
  rintro ⟨h1, h2, h3, h4⟩
  refine ⟨Nat.le_trans h1 h, fun fr hfr => ?_, h3, h4⟩
  obtain ⟨ha, hb, hc⟩ := h2 fr hfr
  exact ⟨ha, Nat.lt_of_lt_of_le hb h, hc⟩

lemma captureStep_framesOK (e : Env) (i : ℕ) (st : LoopSt) (h : FramesOK e i st) :
    FramesOK e (i + 1) (captureStep e i st) := by
  obtain ⟨h1, h2, h3, h4⟩ := h
  unfold captureStep
  by_cases hy : liveVec e i = []
  · simp only [hy, if_pos rfl]
    exact framesOK_mono e (Nat.le_succ i) ⟨h1, h2, h3, h4⟩
  · simp only [if_neg hy]
    by_cases hl : (liveVec e i).length = e.n_wl
    · simp only [if_pos hl]
      refine ⟨?_, ?_, ?_, ?_⟩
      · simp only [List.length_append, List.length_cons, List.length_nil]
        omega
      · intro fr hfr
        rcases List.mem_append.mp hfr with hfr | hfr
        · obtain ⟨ha, hb, hc⟩ := h2 fr hfr
          exact ⟨ha, Nat.lt_succ_of_lt hb, hc⟩
        · rcases List.mem_singleton.mp hfr with rfl
          exact ⟨hl, Nat.lt_succ_self i, rfl⟩
      · rw [List.pairwise_append]
        refine ⟨h3, List.pairwise_singleton _ _, ?_⟩
        intro a ha b hb
        rcases List.mem_singleton.mp hb with rfl
        exact (h2 a ha).2.1
      · rw [h4]
    · simp only [if_neg hl]
      exact framesOK_mono e (Nat.le_succ i) ⟨h1, h2, h3, h4⟩

lemma stepOnce_framesOK (e : Env) (i : ℕ) (st : LoopSt) (h : FramesOK e i st) :
    FramesOK e (i + 1) (stepOnce e i st) := by
  unfold stepOnce
  by_cases hstop : e.stopAt i = true
  · simp only [hstop, if_pos rfl]
    exact framesOK_mono e (Nat.le_succ i) h
  · simp only [hstop, Bool.false_eq_true, if_false]
    by_cases hi : i = 0
    · simp only [hi, if_pos rfl]
      have := captureStep_framesOK e i st h
      rwa [hi] at this
    · simp only [if_neg hi]
      cases (move_stage_and_wait e.fspeed e.step_size 0 (e.moveCmdFail i) (e.movePolls i)).outcome with
      | success =>
        exact captureStep_framesOK e i _ ⟨h.1, h.2.1, h.2.2.1, h.2.2.2⟩
      | timeout => exact framesOK_mono e (Nat.le_succ i) h
      | commFailure => exact framesOK_mono e (Nat.le_succ i) h

/-- Unfolding of one loop iteration. -/
lemma runSteps_succ (e : Env) (i fuel : ℕ) (st : LoopSt) :
    runSteps e i (fuel + 1) st =
      if (stepOnce e i st).status = .running then runSteps e (i + 1) fuel (stepOnce e i st)
      else stepOnce e i st := by
  conv_lhs => rw [runSteps]
  cases h : (stepOnce e i st).status <;> simp [h]

lemma runSteps_framesOK (e : Env) :
    ∀ fuel i st, FramesOK e i st → FramesOK e (i + fuel) (runSteps e i fuel st) := by
  intro fuel
  induction fuel with
  | zero => intro i st h; exact h
  | succ fuel ih =>
    intro i st h
    rw [runSteps_succ]
    have h1 := stepOnce_framesOK e i st h
    by_cases hr : (stepOnce e i st).status = .running
    · rw [if_pos hr]
      have := ih (i + 1) (stepOnce e i st) h1
      rwa [show i + 1 + fuel = i + (fuel + 1) by omega] at this
    · rw [if_neg hr]
      exact framesOK_mono e (by omega) h1

lemma initSt_framesOK (e : Env) : FramesOK e 0 initSt := by
  refine ⟨Nat.le_refl 0, ?_, ?_, rfl⟩ <;> simp [initSt]

/-! ### Monotone growth of the per-run records -/

lemma captureStep_extends (e : Env) (i : ℕ) (st : LoopSt) :
    ∃ fs ps ls, (captureStep e i st).frames = st.frames ++ fs
      ∧ (captureStep e i st).posEvents = st.posEvents ++ ps
      ∧ (captureStep e i st).logs = st.logs ++ ls := by
  unfold captureStep
  by_cases hy : liveVec e i = []
  · refine ⟨[], [(get_position (e.posRaw i)).getD posSentinel],
      [LogEvent.measureStart i] ++ (if bgApplied e i then [LogEvent.bgSubtracted i] else []),
      ?_, ?_, ?_⟩ <;> simp [hy, List.append_assoc]
  · by_cases hl : (liveVec e i).length = e.n_wl
    · refine ⟨[expFrame e i], [(get_position (e.posRaw i)).getD posSentinel],
        [LogEvent.measureStart i] ++ (if bgApplied e i then [LogEvent.bgSubtracted i] else [])
          ++ [LogEvent.measureEnd i],
        ?_, ?_, ?_⟩ <;> simp [hy, hl, List.append_assoc]
    · refine ⟨[], [(get_position (e.posRaw i)).getD posSentinel],
        [LogEvent.measureStart i] ++ (if bgApplied e i then [LogEvent.bgSubtracted i] else [])
          ++ [LogEvent.measureEnd i],
        ?_, ?_, ?_⟩ <;> simp [hy, hl, List.append_assoc]

/-- Each iteration only appends to the frame list, the position events and the
logs. -/
lemma stepOnce_extends (e : Env) (i : ℕ) (st : LoopSt) :
    ∃ fs ps ls, (stepOnce e i st).frames = st.frames ++ fs
      ∧ (stepOnce e i st).posEvents = st.posEvents ++ ps
      ∧ (stepOnce e i st).logs = st.logs ++ ls := by
  unfold stepOnce
  by_cases hstop : e.stopAt i = true
  · exact ⟨[], [], [.userInterrupted], by simp [hstop], by simp [hstop], by simp [hstop]⟩
  · simp only [hstop, Bool.false_eq_true, if_false]
    by_cases hi : i = 0
    · subst hi
      simp only [if_pos rfl]
      exact captureStep_extends e 0 st
    · simp only [if_neg hi]
      cases hmv : (move_stage_and_wait e.fspeed e.step_size 0 (e.moveCmdFail i) (e.movePolls i)).outcome with
      | success =>
        obtain ⟨fs, ps, ls, h1, h2, h3⟩ :=
          captureStep_extends e i { st with logs := st.logs ++ [.moveStart i, .moveStop i] }
        refine ⟨fs, ps, [.moveStart i, .moveStop i] ++ ls, by simpa using h1, by simpa using h2, ?_⟩
        simp only at h3
        rw [h3]
        simp [List.append_assoc]
      | timeout =>
        exact ⟨[], [], [.moveStart i, .moveTimeout i, .moveFailedAbort], by simp, by simp, by simp⟩
      | commFailure =>
        exact ⟨[], [], [.moveStart i, .moveExc i, .moveFailedAbort], by simp, by simp, by simp⟩

lemma runSteps_extends (e : Env) :
    ∀ fuel i st, ∃ fs ps ls, (runSteps e i fuel st).frames = st.frames ++ fs
      ∧ (runSteps e i fuel st).posEvents = st.posEvents ++ ps
      ∧ (runSteps e i fuel st).logs = st.logs ++ ls := by
  intro fuel
  induction fuel with
  | zero => intro i st; exact ⟨[], [], [], by simp [runSteps], by simp [runSteps], by simp [runSteps]⟩
  | succ fuel ih =>
    intro i st
    rw [runSteps_succ]
    obtain ⟨fs1, ps1, ls1, hf1, hp1, hl1⟩ := stepOnce_extends e i st
    by_cases hr : (stepOnce e i st).status = .running
    · rw [if_pos hr]
      obtain ⟨fs2, ps2, ls2, hf2, hp2, hl2⟩ := ih (i + 1) (stepOnce e i st)
      exact ⟨fs1 ++ fs2, ps1 ++ ps2, ls1 ++ ls2,
        by rw [hf2, hf1, List.append_assoc],
        by rw [hp2, hp1, List.append_assoc],
        by rw [hl2, hl1, List.append_assoc]⟩
    · rw [if_neg hr]
      exact ⟨fs1, ps1, ls1, hf1, hp1, hl1⟩

/-! ### Facts about `finishRun` and terminal statuses -/

lemma finishRun_frames (e : Env) (st : LoopSt) : (finishRun e st).frames = st.frames := by
  unfold finishRun
  split_ifs <;> rfl

lemma finishRun_txtRows (e : Env) (st : LoopSt) : (finishRun e st).txtRows = st.txtRows := by
  unfold finishRun
  split_ifs <;> rfl

lemma finishRun_posEvents_of_ne (e : Env) (st : LoopSt) (h : st.status ≠ .errored) :
    (finishRun e st).posEvents
      = st.posEvents ++ [(get_position e.finalPosRaw).getD posSentinel] := by
  unfold finishRun
  rw [if_neg h]

lemma finishRun_logs_of_ne (e : Env) (st : LoopSt) (h : st.status ≠ .errored) :
    (finishRun e st).logs = st.logs ++ [.finMsg] := by
  unfold finishRun
  rw [if_neg h]

lemma finishRun_csvRows_of_ne (e : Env) (st : LoopSt) (h : st.status ≠ .errored) :
    (finishRun e st).csvRows = if st.frames.isEmpty then [] else csvOf e.wavelengths st.frames := by
  unfold finishRun
  rw [if_neg h]

lemma finishRun_status_of_ne (e : Env) (st : LoopSt) (h : st.status ≠ .errored) :
    (finishRun e st).status = if st.status = .running then .completed else st.status := by
  unfold finishRun
  rw [if_neg h]

lemma finishRun_errored_iff (e : Env) (st : LoopSt) :
    (finishRun e st).status = .errored ↔ st.status = .errored := by
  unfold finishRun
  by_cases h : st.status = .errored
  · simp [h]
  · rw [if_neg h]
    by_cases hr : st.status = .running <;> simp [hr, h]

lemma captureStep_status (e : Env) (i : ℕ) (st : LoopSt) :
    (captureStep e i st).status = st.status ∨ (captureStep e i st).status = .errored := by
  unfold captureStep
  by_cases hy : liveVec e i = []
  · simp [hy]
  · by_cases hl : (liveVec e i).length = e.n_wl <;> simp [hy, hl]

lemma stepOnce_status_ne_completed (e : Env) (i : ℕ) (st : LoopSt)
    (h : st.status ≠ .completed) : (stepOnce e i st).status ≠ .completed := by
  unfold stepOnce
  by_cases hstop : e.stopAt i = true
  · simp [hstop]
  · simp only [hstop, Bool.false_eq_true, if_false]
    by_cases hi : i = 0
    · subst hi
      rw [if_pos rfl]
      rcases captureStep_status e 0 st with h' | h' <;> rw [h'] <;> simp_all
    · rw [if_neg hi]
      cases hmv : (move_stage_and_wait e.fspeed e.step_size 0 (e.moveCmdFail i) (e.movePolls i)).outcome with
      | success =>
        rcases captureStep_status e i { st with logs := st.logs ++ [.moveStart i, .moveStop i] }
          with h' | h' <;> rw [h'] <;> simp_all
      | timeout => simp
      | commFailure => simp

lemma runSteps_status_ne_completed (e : Env) :
    ∀ fuel i st, st.status ≠ .completed → (runSteps e i fuel st).status ≠ .completed := by
  intro fuel
  induction fuel with
  | zero => intro i st h; exact h
  | succ fuel ih =>
    intro i st h
    rw [runSteps_succ]
    by_cases hr : (stepOnce e i st).status = .running
    · rw [if_pos hr]
      exact ih (i + 1) (stepOnce e i st) (stepOnce_status_ne_completed e i st h)
    · rw [if_neg hr]
      exact stepOnce_status_ne_completed e i st h

/-! ### Which step can emit which log event -/

/-- The step index carried by a log event, if any. -/
def LogEvent.stepIdx : LogEvent → Option ℕ
  | .moveStart i => some i
  | .moveStop i => some i
  | .moveTimeout i => some i
  | .moveExc i => some i
  | .measureStart i => some i
  | .bgSubtracted i => some i
  | .measureEnd i => some i
  | _ => none

lemma stepOnce_logs_stepIdx (e : Env) (i : ℕ) (st : LoopSt) :
    ∀ ev ∈ (stepOnce e i st).logs,
      ev ∈ st.logs ∨ ev.stepIdx = none ∨ ev.stepIdx = some i := by
  intro ev hev
  unfold stepOnce captureStep at hev
  by_cases hstop : e.stopAt i = true
  · simp only [hstop, if_pos rfl] at hev
    rcases List.mem_append.mp hev with h | h
    · exact Or.inl h
    · rcases List.mem_singleton.mp h with rfl
      exact Or.inr (Or.inl rfl)
  · simp only [hstop, Bool.false_eq_true, if_false] at hev
    have capture_case :
        ∀ l0 : List LogEvent,
          ev ∈ l0 ++ [LogEvent.measureStart i]
              ++ (if bgApplied e i then [LogEvent.bgSubtracted i] else [])
              ∨ ev ∈ (l0 ++ [LogEvent.measureStart i]
              ++ (if bgApplied e i then [LogEvent.bgSubtracted i] else [])) ++ [LogEvent.measureEnd i] →
          ev ∈ l0 ∨ ev.stepIdx = none ∨ ev.stepIdx = some i := by
      intro l0 h
      have h' : ev ∈ l0 ∨ ev = LogEvent.measureStart i ∨ ev = LogEvent.bgSubtracted i
          ∨ ev = LogEvent.measureEnd i := by
        rcases h with h | h <;> by_cases hb : bgApplied e i = true <;>
          simp only [hb, if_pos rfl, Bool.false_eq_true, if_false] at h <;>
          simp [List.mem_append] at h <;> tauto
      rcases h' with h' | h' | h' | h' <;> simp [h', LogEvent.stepIdx]
    by_cases hi : i = 0
    · subst hi
      simp only [if_pos rfl] at hev
      by_cases hy : liveVec e 0 = [] <;>
        by_cases hl : (liveVec e 0).length = e.n_wl <;>
          simp only [hy, hl, if_pos rfl, if_false, if_true] at hev <;>
          [skip; skip; skip; skip] <;> first
          | exact capture_case st.logs (Or.inl hev)
          | exact capture_case st.logs (Or.inr hev)
    · simp only [if_neg hi] at hev
      rcases hmv : (move_stage_and_wait e.fspeed e.step_size 0 (e.moveCmdFail i) (e.movePolls i)).outcome
        with _ | _ | _ <;> rw [hmv] at hev
      ·
        have base :
            ∀ h : ev ∈ st.logs ++ [LogEvent.moveStart i, LogEvent.moveStop i],
              ev ∈ st.logs ∨ ev.stepIdx = none ∨ ev.stepIdx = some i := by
          intro h
          rcases List.mem_append.mp h with h | h
          · exact Or.inl h
          · rcases List.mem_cons.mp h with rfl | h
            · exact Or.inr (Or.inr rfl)
            · rcases List.mem_singleton.mp h with rfl
              exact Or.inr (Or.inr rfl)
        by_cases hy : liveVec e i = []
        · simp only [hy, if_pos rfl] at hev
          rcases capture_case _ (Or.inl hev) with h | h
          · exact base h
          · exact Or.inr h
        · by_cases hl : (liveVec e i).length = e.n_wl <;>
            simp only [hy, hl, if_pos rfl, Bool.false_eq_true, if_false, if_true] at hev <;>
            rcases capture_case _ (Or.inr hev) with h | h <;>
            first | exact base h | exact Or.inr h
      · simp only at hev
        rcases List.mem_append.mp hev with h | h
        · exact Or.inl h
        · have : ev = LogEvent.moveStart i ∨ ev = LogEvent.moveTimeout i
              ∨ ev = LogEvent.moveFailedAbort := by simpa using h
          rcases this with rfl | rfl | rfl <;> simp [LogEvent.stepIdx]
      · simp only at hev
        rcases List.mem_append.mp hev with h | h
        · exact Or.inl h
        · have : ev = LogEvent.moveStart i ∨ ev = LogEvent.moveExc i
              ∨ ev = LogEvent.moveFailedAbort := by simpa using h
          rcases this with rfl | rfl | rfl <;> simp [LogEvent.stepIdx]

lemma runSteps_logs_stepIdx (e : Env) :
    ∀ fuel i st, ∀ ev ∈ (runSteps e i fuel st).logs,
      ev ∈ st.logs ∨ ev.stepIdx = none ∨ ∃ n, ev.stepIdx = some n ∧ i ≤ n := by
  intro fuel
  induction fuel with
  | zero => intro i st ev hev; exact Or.inl hev
  | succ fuel ih =>
    intro i st ev hev
    rw [runSteps_succ] at hev
    by_cases hr : (stepOnce e i st).status = .running
    · rw [if_pos hr] at hev
      rcases ih (i + 1) (stepOnce e i st) ev hev with h | h | ⟨n, hn, hin⟩
      · rcases stepOnce_logs_stepIdx e i st ev h with h' | h' | h'
        · exact Or.inl h'
        · exact Or.inr (Or.inl h')
        · exact Or.inr (Or.inr ⟨i, h', Nat.le_refl i⟩)
      · exact Or.inr (Or.inl h)
      · exact Or.inr (Or.inr ⟨n, hn, by omega⟩)
    · rw [if_neg hr] at hev
      rcases stepOnce_logs_stepIdx e i st ev hev with h | h | h
      · exact Or.inl h
      · exact Or.inr (Or.inl h)
      · exact Or.inr (Or.inr ⟨i, h, Nat.le_refl i⟩)

lemma mem_stepLogs_measureStart (e : Env) (n j : ℕ)
    (h : LogEvent.measureStart n ∈ stepLogs e j) : n = j := by
  unfold stepLogs at h
  by_cases hj : j = 0 <;> by_cases hb : bgApplied e j = true <;>
    simp [hj, hb] at h <;> simp_all

lemma mem_stepLogs_bg (e : Env) (n j : ℕ)
    (h : LogEvent.bgSubtracted n ∈ stepLogs e j) : n = j ∧ bgApplied e j = true := by
  unfold stepLogs at h
  by_cases hj : j = 0 <;> by_cases hb : bgApplied e j = true <;>
    simp [hj, hb] at h <;> simp_all

/-! ### Shape of the csv body -/

lemma csvOf_length (wls : List ℚ) (frames : List Frame) :
    (csvOf wls frames).length = wls.length := by
  simp [csvOf]

lemma csvOf_get (wls : List ℚ) (frames : List Frame) (iw : ℕ) (h : iw < wls.length) :
    (csvOf wls frames)[iw]?
      = some (wls.getD iw 0, frames.map (fun fr => fr.intensities.getD iw 0)) := by
  unfold csvOf
  rw [List.getElem?_map, List.getElem?_range h]
  rfl

lemma csvOf_cols (wls : List ℚ) (frames : List Frame) :
    ∀ row ∈ csvOf wls frames, row.2.length = frames.length := by
  intro row hrow
  simp only [csvOf, List.mem_map, List.mem_range] at hrow
  obtain ⟨iw, -, rfl⟩ := hrow
  simp

/-! ### The run at a step all of whose predecessors completed normally -/

lemma workerRun_posEvents_get (e : Env) (i : ℕ)
    (h : i < (runSteps e 0 e.loop_num initSt).posEvents.length) :
    (workerRun e).posEvents[i]? = (runSteps e 0 e.loop_num initSt).posEvents[i]? := by
  unfold workerRun
  by_cases herr : (runSteps e 0 e.loop_num initSt).status = .errored
  · unfold finishRun
    rw [if_pos herr]
  · rw [finishRun_posEvents_of_ne e _ herr, List.getElem?_append_left h]

lemma workerRun_at_good (e : Env) (i : ℕ) (hg : ∀ j ≤ i, goodStep e j) (hi : i < e.loop_num) :
    (workerRun e).frames[i]? = some (expFrame e i)
    ∧ (workerRun e).posEvents[i]? = some ((get_position (e.posRaw i)).getD posSentinel) := by
  have hle : i + 1 ≤ e.loop_num := hi
  have hnorm := runSteps_normal e (i + 1) (fun j hj => hg j (Nat.lt_succ_iff.mp hj)) e.loop_num hle
  obtain ⟨fs, ps, ls, hf, hp, -⟩ :=
    runSteps_extends e (e.loop_num - (i + 1)) (i + 1) (normalState e (i + 1))
  have hflen : i < (normalState e (i + 1)).frames.length := by
    simp [normalState]
  have hplen : i < (normalState e (i + 1)).posEvents.length := by
    simp [normalState]
  constructor
  · rw [workerRun, finishRun_frames, hnorm, hf, List.getElem?_append_left hflen]
    show ((List.range (i + 1)).map (expFrame e))[i]? = some (expFrame e i)
    rw [List.getElem?_map, List.getElem?_range (Nat.lt_succ_self i)]
    rfl
  · rw [workerRun_posEvents_get e i (by rw [hnorm, hp]; simp only [List.length_append]; omega)]
    rw [hnorm, hp, List.getElem?_append_left hplen]
    show ((List.range (i + 1)).map
      (fun j => (get_position (e.posRaw j)).getD posSentinel))[i]? = _
    rw [List.getElem?_map, List.getElem?_range (Nat.lt_succ_self i)]
    rfl

/-! ### Concrete environments used to instantiate the claims -/

/-- A raw device vector: `leadOffset` dead samples followed by the payload. -/
def pad (l : List ℚ) : List ℚ := List.replicate leadOffset 0 ++ l

lemma pad_drop (l : List ℚ) : (pad l).drop leadOffset = l := by
  unfold pad
  have h := List.drop_left (List.replicate leadOffset (0 : ℚ)) l
  rwa [List.length_replicate] at h

/-- A small healthy run: step 1, range 3 (three steps), three wavelengths,
background `[2, 3, 10]` against captures `[5, 3, 9]`, instant stage. -/
def envA : Env :=
  { step_size := 1, range_input := 3, integration_time_ms := 100, fspeed := 1000
    bg_data := some [2, 3, 10]
    raw_wavelengths := pad [400, 500, 600]
    rawCapture := fun _ => pad [5, 3, 9]
    moveCmdFail := fun _ => false
    movePolls := fun _ _ => some "0"
    posRaw := fun _ => some "12"
    finalPosRaw := some "15"
    stopAt := fun _ => false }

/-- `envA` with the cancel flag raised after step 0 completed. -/
def envCancel : Env := { envA with stopAt := fun i => i != 0 }

/-- `envA` with a stage whose motion status never reads `"0"`. -/
def envTimeout : Env := { envA with movePolls := fun _ _ => some "1" }

/-- A one-step run with a background of mismatched length 2. -/
def envMis : Env := { envA with range_input := 1, bg_data := some [2, 3] }

/-- `envMis` without any background. -/
def envMisNoBG : Env := { envMis with bg_data := none }

/-- `envA` with a stage that answers position queries non-numerically and
fails the final query outright. -/
def envPosFail : Env := { envA with posRaw := fun _ => some "ERR", finalPosRaw := none }

/-! ### Claims -/

/-- C9: for every step_size the per-step delay is
`2 * step_size * 1e-6 / 299792458 * 1e15` femtoseconds (the value the GUI
hands to the worker is this same expression), and `step_size = 3` yields
about 20.02 fs within 0.01 fs. -/
theorem C9_dt_formula :
    (∀ s : ℕ, calculate_dt s = 2 * (s : ℚ) * (1 / 10 ^ 6) / 299792458 * 10 ^ 15)
    ∧ (∀ e : Env, e.dt = calculate_dt e.step_size)
    ∧ |calculate_dt 3 - 2002 / 100| ≤ 1 / 100 := by
  refine ⟨fun s => rfl, fun e => rfl, ?_⟩
  have h3 : calculate_dt 3 = 6000000000 / 299792458 := by
    unfold calculate_dt
    norm_num
  rw [h3, abs_le]
  constructor <;> norm_num

/-- C6: `move_stage_and_wait` first writes the speed-set and the
pulse-move-with-direction commands, makes at most 120 status polls (sleeping
100 ms between polls), succeeds exactly when a poll reads exactly `"0"`,
times out when all 120 polls read something else, and fails on an I/O error
anywhere in the sequence. -/
theorem C6_moveAndWait_contract (fspeed pulses direction : ℕ) (resp : ℕ → Option String) :
    (move_stage_and_wait fspeed pulses direction false resp).writes.take 2
        = [speedCmd fspeed, pulseMoveCmd pulses direction]
    ∧ (move_stage_and_wait fspeed pulses direction false resp).writes.length ≤ 2 + maxPolls
    ∧ ((move_stage_and_wait fspeed pulses direction false resp).outcome = .success ↔
        ∃ q < maxPolls, resp q = some "0" ∧ ∀ p < q, ∃ s, resp p = some s ∧ s ≠ "0")
    ∧ ((∀ p < maxPolls, ∃ s, resp p = some s ∧ s ≠ "0") →
        (move_stage_and_wait fspeed pulses direction false resp).outcome = .timeout)
    ∧ (∀ q < maxPolls, resp q = none → (∀ p < q, ∃ s, resp p = some s ∧ s ≠ "0") →
        (move_stage_and_wait fspeed pulses direction false resp).outcome = .commFailure)
    ∧ (move_stage_and_wait fspeed pulses direction true resp).outcome = .commFailure
    ∧ maxPolls = 120 ∧ pollIntervalMs = 100 := by
  refine ⟨rfl, ?_, ?_, ?_, ?_, rfl, rfl, rfl⟩
  · show ([speedCmd fspeed, pulseMoveCmd pulses direction]
      ++ List.replicate (pollCount resp 0 maxPolls) motionQuery).length ≤ 2 + maxPolls
    rw [List.length_append, List.length_replicate]
    have := pollCount_le resp maxPolls 0
    simp only [List.length_cons, List.length_nil]
    omega
  · show pollMotion resp 0 maxPolls = .success ↔ _
    rw [pollMotion_success_iff resp maxPolls 0]
    simp only [Nat.zero_add]
  · intro h
    show pollMotion resp 0 maxPolls = .timeout
    exact pollMotion_timeout resp maxPolls 0 (fun p _ hp => h p (by omega))
  · intro q hq hnone hall
    show pollMotion resp 0 maxPolls = .commFailure
    exact pollMotion_commFailure resp maxPolls 0 q hq (by simpa using hnone)
      (fun p hp => by simpa using hall p hp)

/-- Witness for C6 at a concrete stage link whose polls always answer `"1"`. -/
theorem C6_witness :
    (move_stage_and_wait 1000 3 0 false (fun _ => some "1")).outcome = .timeout :=
  (C6_moveAndWait_contract 1000 3 0 (fun _ => some "1")).2.2.2.1
    (fun p _ => ⟨"1", rfl, by decide⟩)

set_option maxRecDepth 100000 in
/-- C7 is wrong about the ver.2.0 engine: the worker passes the raw
millisecond count straight to the microsecond-resolution setter
(`integration_time_micros(integration_time_ms)`, line 151), so a 100 ms
request configures a 100 µs exposure; the refactored controller
(`set_integration_time`) multiplies by 1000, which is what the claim
describes. -/
theorem C7_integration_time_unit_bug :
    configuredExposureMicros 100 = 100
    ∧ set_integration_time 100 = 100000
    ∧ configuredExposureMicros 100 ≠ set_integration_time 100
    ∧ (workerRun envA).setMicros = [100, 100, 100]
    ∧ envA.integration_time_ms = 100 := by
  exact ⟨rfl, rfl, by decide, by decide, rfl⟩

/-- C4: whenever a background is supplied and its length matches the captured
vector, the stored frame is the element-wise, unclamped difference. -/
theorem C4_bg_subtraction_unclamped (e : Env) (i : ℕ) (b : List ℚ)
    (hb : e.bg_data = some b)
    (hlen : ((e.rawCapture i).drop leadOffset).length = b.length)
    (hg : ∀ j ≤ i, goodStep e j) (hi : i < e.loop_num) :
    (workerRun e).frames[i]? = some (expFrame e i)
    ∧ (expFrame e i).intensities
        = List.zipWith (· - ·) ((e.rawCapture i).drop leadOffset) b := by
  refine ⟨(workerRun_at_good e i hg hi).1, ?_⟩
  simp [expFrame, liveVec, applyBG, hb, hlen]

set_option maxRecDepth 100000 in
/-- Witness for C4: live `[5, 3, 9]` minus background `[2, 3, 10]` is stored
as `[3, 0, -1]` — the negative value is preserved. -/
theorem C4_witness :
    (workerRun envA).frames[0]? = some (expFrame envA 0)
    ∧ (expFrame envA 0).intensities = [3, 0, -1] := by
  have h := C4_bg_subtraction_unclamped envA 0 [2, 3, 10] rfl
    (by rw [show envA.rawCapture 0 = pad [5, 3, 9] from rfl, pad_drop]; rfl)
    (by decide) (by decide)
  refine ⟨h.1, ?_⟩
  rw [h.2, show envA.rawCapture 0 = pad [5, 3, 9] from rfl, pad_drop]
  norm_num [List.zipWith]

/-- C5 amended: a background of mismatched length leaves the captured vector
stored unmodified and the step completes normally, but the mismatch is
silently skipped — no message is logged for it (the only background-related
emission, `bgSubtracted`, never appears). -/
theorem C5_shape_mismatch_skips (e : Env) (i : ℕ) (b : List ℚ)
    (hb : e.bg_data = some b)
    (hlen : ((e.rawCapture i).drop leadOffset).length ≠ b.length)
    (hg : ∀ j ≤ i, goodStep e j) (hi : i < e.loop_num) :
    (workerRun e).frames[i]? = some (expFrame e i)
    ∧ (expFrame e i).intensities = (e.rawCapture i).drop leadOffset
    ∧ LogEvent.bgSubtracted i ∉ (workerRun e).logs := by
  have happ : applyBG e.bg_data ((e.rawCapture i).drop leadOffset)
      = ((e.rawCapture i).drop leadOffset, false) := by
    rw [hb]
    simp only [applyBG]
    rw [if_neg hlen]
  have hbg : bgApplied e i = false := by
    unfold bgApplied
    rw [happ]
  refine ⟨(workerRun_at_good e i hg hi).1,
    by unfold expFrame liveVec; rw [happ], ?_⟩
  intro hmem
  have hlogs : LogEvent.bgSubtracted i ∈ (runSteps e 0 e.loop_num initSt).logs := by
    unfold workerRun at hmem
    by_cases herr : (runSteps e 0 e.loop_num initSt).status = .errored
    · unfold finishRun at hmem
      rw [if_pos herr] at hmem
      simp only [List.mem_append, List.mem_singleton] at hmem
      rcases hmem with h | h
      · exact h
      · simp at h
    · rw [finishRun_logs_of_ne e _ herr] at hmem
      rcases List.mem_append.mp hmem with h | h
      · exact h
      · simp at h
  have hle : i + 1 ≤ e.loop_num := hi
  rw [runSteps_normal e (i + 1) (fun j hj => hg j (Nat.lt_succ_iff.mp hj)) e.loop_num hle]
    at hlogs
  rcases runSteps_logs_stepIdx e (e.loop_num - (i + 1)) (i + 1) (normalState e (i + 1))
      _ hlogs with h | h | ⟨n, hn, hin⟩
  · simp only [normalState, List.mem_cons, List.mem_flatten, List.mem_map] at h
    rcases h with h | ⟨l, ⟨j, hj, rfl⟩, hl⟩
    · cases h
    · obtain ⟨rfl, hba⟩ := mem_stepLogs_bg e i j hl
      rw [hba] at hbg
      cases hbg
  · simp [LogEvent.stepIdx] at h
  · simp only [LogEvent.stepIdx, Option.some.injEq] at hn
    omega

set_option maxRecDepth 100000 in
/-- Witness for the amended C5: on the concrete mismatched run the frame is
recorded and no background log entry is ever emitted. -/
theorem C5_witness :
    (workerRun envMis).frames[0]? = some (expFrame envMis 0)
    ∧ LogEvent.bgSubtracted 0 ∉ (workerRun envMis).logs := by
  have h := C5_shape_mismatch_skips envMis 0 [2, 3] rfl (by decide) (by decide) (by decide)
  exact ⟨h.1, h.2.2⟩

set_option maxRecDepth 100000 in
/-- Counterexample to C5 as stated: with live `[5, 3, 9]` and background
`[2, 3]` the frame is stored unmodified and the step completes, but nothing
is logged about the mismatch — the run's log stream is identical to that of
the same run with no background at all. -/
theorem C5_counterexample :
    (workerRun envMis).frames.map Frame.intensities = [[5, 3, 9]]
    ∧ (workerRun envMis).status = .completed
    ∧ (workerRun envMis).logs = (workerRun envMisNoBG).logs
    ∧ LogEvent.bgSubtracted 0 ∉ (workerRun envMis).logs := by
  refine ⟨by decide, by decide, by decide, by decide⟩

lemma finishRun_setMicros (e : Env) (st : LoopSt) :
    (finishRun e st).setMicros = st.setMicros := by
  unfold finishRun
  split_ifs <;> rfl

lemma finishRun_progress (e : Env) (st : LoopSt) :
    (finishRun e st).progress = st.progress := by
  unfold finishRun
  split_ifs <;> rfl

/-- C1: when the move before step `i ≥ 1` times out (every status poll reads
a line other than `"0"`), the run ends `failed`; step `i` performs no
position read, no exposure configuration, no capture and no progress emit,
and exactly the frames of steps `0 .. i-1` are retained (with their
row-major rows); the only extra position event is the terminal one. -/
theorem C1_move_timeout_fails_run (e : Env) (i : ℕ) (h1 : 1 ≤ i) (hi : i < e.loop_num)
    (hg : ∀ j < i, goodStep e j)
    (hstop : e.stopAt i = false)
    (hcf : e.moveCmdFail i = false)
    (hto : ∀ p < maxPolls, ∃ s, e.movePolls i p = some s ∧ s ≠ "0") :
    (workerRun e).status = .failed
    ∧ (workerRun e).frames = (List.range i).map (expFrame e)
    ∧ (workerRun e).txtRows = (List.range i).map (expFrame e)
    ∧ (workerRun e).posEvents.length = i + 1
    ∧ (workerRun e).setMicros.length = i
    ∧ (workerRun e).progress.length = i
    ∧ LogEvent.measureStart i ∉ (workerRun e).logs := by
  have hmv : (move_stage_and_wait e.fspeed e.step_size 0 (e.moveCmdFail i) (e.movePolls i)).outcome
      = .timeout := by
    rw [hcf]
    show pollMotion (e.movePolls i) 0 maxPolls = .timeout
    exact pollMotion_timeout (e.movePolls i) maxPolls 0 (fun p _ hp => hto p (by omega))
  have hstep : stepOnce e i (normalState e i) =
      { normalState e i with
        status := .failed
        logs := (normalState e i).logs
          ++ [.moveStart i, .moveTimeout i, .moveFailedAbort] } := by
    unfold stepOnce
    rw [hstop]
    simp only [Bool.false_eq_true, if_false]
    rw [if_neg (by omega : ¬ i = 0), hmv]
  have hloop : runSteps e 0 e.loop_num initSt =
      { normalState e i with
        status := .failed
        logs := (normalState e i).logs
          ++ [.moveStart i, .moveTimeout i, .moveFailedAbort] } := by
    rw [runSteps_normal e i hg e.loop_num (Nat.le_of_lt hi),
      show e.loop_num - i = (e.loop_num - i - 1) + 1 by omega,
      runSteps_succ, hstep]
    rw [if_neg (by simp)]
  have hne : ({ normalState e i with
      status := Status.failed
      logs := (normalState e i).logs
        ++ [.moveStart i, .moveTimeout i, .moveFailedAbort] } : LoopSt).status
      ≠ .errored := by simp
  refine ⟨?_, ?_, ?_, ?_, ?_, ?_, ?_⟩
  · rw [workerRun, hloop, finishRun_status_of_ne e _ hne]
    rfl
  · rw [workerRun, finishRun_frames, hloop]
    rfl
  · rw [workerRun, finishRun_txtRows, hloop]
    rfl
  · rw [workerRun, hloop, finishRun_posEvents_of_ne e _ hne]
    simp [normalState]
  · rw [workerRun, finishRun_setMicros, hloop]
    simp [normalState]
  · rw [workerRun, finishRun_progress, hloop]
    simp [normalState]
  · rw [workerRun, hloop, finishRun_logs_of_ne e _ hne]
    intro hmem
    simp only [normalState, List.mem_append, List.mem_cons, List.mem_singleton] at hmem
    rcases hmem with ((h | h) | h | h | h) | h
    · simp at h
    · rw [List.mem_flatten] at h
      obtain ⟨l, hl, hml⟩ := h
      rw [List.mem_map] at hl
      obtain ⟨j, hj, rfl⟩ := hl
      have := mem_stepLogs_measureStart e i j hml
      rw [List.mem_range] at hj
      omega
    · simp at h
    · simp at h
    · simp at h
    · simp at h

set_option maxRecDepth 100000 in
/-- Witness for C1 at a concrete run whose stage never reports idle: step 1
times out, the run fails, and only step 0's frame is kept. -/
theorem C1_witness :
    (workerRun envTimeout).status = .failed
    ∧ (workerRun envTimeout).frames = (List.range 1).map (expFrame envTimeout) := by
  have h := C1_move_timeout_fails_run envTimeout 1 (Nat.le_refl 1) (by decide)
    (by decide) rfl rfl (fun p _ => ⟨"1", rfl, by decide⟩)
  exact ⟨h.1, h.2.1⟩

/-- C2 amended: cancelling after step `k` completed (with `k + 1 < loop_num`)
ends the run `cancelled` (not `failed`) with exactly `k + 1` frames; the
row-major file holds exactly `k + 1` data rows, and the column-major file
holds one data row per wavelength, each carrying exactly `k + 1` values (one
per completed step), besides the headers. -/
theorem C2_cancellation_amended (e : Env) (k : ℕ) (hk : k + 1 < e.loop_num)
    (hg : ∀ j ≤ k, goodStep e j) (hc : e.stopAt (k + 1) = true) :
    (workerRun e).status = .cancelled
    ∧ (workerRun e).frames.length = k + 1
    ∧ (workerRun e).txtRows.length = k + 1
    ∧ (workerRun e).csvRows.length = e.n_wl
    ∧ ∀ row ∈ (workerRun e).csvRows, row.2.length = k + 1 := by
  have hstep : stepOnce e (k + 1) (normalState e (k + 1)) =
      { normalState e (k + 1) with
        status := .cancelled
        logs := (normalState e (k + 1)).logs ++ [.userInterrupted] } := by
    unfold stepOnce
    rw [if_pos hc]
  have hloop : runSteps e 0 e.loop_num initSt =
      { normalState e (k + 1) with
        status := .cancelled
        logs := (normalState e (k + 1)).logs ++ [.userInterrupted] } := by
    rw [runSteps_normal e (k + 1) (fun j hj => hg j (Nat.lt_succ_iff.mp hj))
        e.loop_num (Nat.le_of_lt hk),
      show e.loop_num - (k + 1) = (e.loop_num - (k + 1) - 1) + 1 by omega,
      runSteps_succ, hstep]
    rw [if_neg (by simp)]
  have hne : ({ normalState e (k + 1) with
      status := Status.cancelled
      logs := (normalState e (k + 1)).logs ++ [.userInterrupted] } : LoopSt).status
      ≠ .errored := by simp
  refine ⟨?_, ?_, ?_, ?_, ?_⟩
  · rw [workerRun, hloop, finishRun_status_of_ne e _ hne]
    rfl
  · rw [workerRun, finishRun_frames, hloop]
    simp [normalState]
  · rw [workerRun, finishRun_txtRows, hloop]
    simp [normalState]
  · rw [workerRun, hloop, finishRun_csvRows_of_ne e _ hne]
    rw [if_neg (by simp [normalState])]
    rw [csvOf_length]
    rfl
  · rw [workerRun, hloop, finishRun_csvRows_of_ne e _ hne]
    rw [if_neg (by simp [normalState])]
    intro row hrow
    have := csvOf_cols e.wavelengths _ row hrow
    simpa [normalState] using this

set_option maxRecDepth 100000 in
/-- Counterexample to C2 as stated: cancelling `envCancel` after step 0
(`k = 0`, three wavelengths) leaves the column-major file with 3 data rows
(one per wavelength), not `k + 1 = 1`; the row-major file does have 1 data
row and the state is `cancelled`. -/
theorem C2_counterexample :
    (workerRun envCancel).status = .cancelled
    ∧ (workerRun envCancel).frames.length = 1
    ∧ (workerRun envCancel).txtRows.length = 1
    ∧ (workerRun envCancel).csvRows.length = 3
    ∧ ¬ (workerRun envCancel).csvRows.length = 1 := by
  exact ⟨by decide, by decide, by decide, by decide, by decide⟩

set_option maxRecDepth 100000 in
/-- Witness for the amended C2: cancelling the concrete run after step 0
gives one frame, one row-major data row, and per-wavelength csv rows of one
value each. -/
theorem C2_witness :
    (workerRun envCancel).csvRows.length = envCancel.n_wl
    ∧ ∀ row ∈ (workerRun envCancel).csvRows, row.2.length = 1 := by
  have h := C2_cancellation_amended envCancel 0 (by decide) (by decide) rfl
  exact ⟨h.2.2.2.1, h.2.2.2.2⟩

lemma finishRun_flags_of_ne (e : Env) (st : LoopSt) (h : st.status ≠ .errored) :
    (finishRun e st).filesClosed = true ∧ (finishRun e st).dataSaved = true
      ∧ (finishRun e st).finishedEmitted = true := by
  unfold finishRun
  rw [if_neg h]
  exact ⟨rfl, rfl, rfl⟩

/-- C3: on the three terminal paths (`completed`, `cancelled`, `failed`)
every recorded frame is persisted in both layouts — the row-major rows are
exactly the frames, and each wavelength's csv row carries one value per
frame — the files are closed, the `dataSaved` and `finished` events fire,
and a final position event is emitted before control returns. -/
theorem C3_terminal_persistence (e : Env) (h : (workerRun e).status ≠ .errored) :
    (workerRun e).txtRows = (workerRun e).frames
    ∧ ((workerRun e).frames ≠ [] →
        (workerRun e).csvRows.length = e.n_wl
        ∧ ∀ iw < e.n_wl, (workerRun e).csvRows[iw]?
            = some (e.wavelengths.getD iw 0,
                (workerRun e).frames.map (fun fr => fr.intensities.getD iw 0)))
    ∧ (workerRun e).filesClosed = true
    ∧ (workerRun e).dataSaved = true
    ∧ (workerRun e).finishedEmitted = true
    ∧ (workerRun e).posEvents.getLast?
        = some ((get_position e.finalPosRaw).getD posSentinel)
    ∧ ((workerRun e).status = .completed ∨ (workerRun e).status = .cancelled
        ∨ (workerRun e).status = .failed) := by
  have hloopne : (runSteps e 0 e.loop_num initSt).status ≠ .errored := by
    intro he
    exact h (by rw [workerRun]; exact (finishRun_errored_iff e _).mpr he)
  have hok := runSteps_framesOK e e.loop_num 0 initSt (initSt_framesOK e)
  refine ⟨?_, ?_, (finishRun_flags_of_ne e _ hloopne).1,
    (finishRun_flags_of_ne e _ hloopne).2.1, (finishRun_flags_of_ne e _ hloopne).2.2, ?_, ?_⟩
  · rw [workerRun, finishRun_frames, finishRun_txtRows]
    exact hok.2.2.2
  · intro hne
    rw [workerRun, finishRun_frames] at hne ⊢
    rw [finishRun_csvRows_of_ne e _ hloopne,
      if_neg (by rw [List.isEmpty_eq_true]; exact hne)]
    refine ⟨csvOf_length _ _, fun iw hiw => csvOf_get _ _ iw hiw⟩
  · rw [workerRun, finishRun_posEvents_of_ne e _ hloopne]
    simp
  · have hc := runSteps_status_ne_completed e e.loop_num 0 initSt (by simp [initSt])
    rw [workerRun, finishRun_status_of_ne e _ hloopne]
    by_cases hr : (runSteps e 0 e.loop_num initSt).status = .running
    · rw [if_pos hr]
      exact Or.inl rfl
    · rw [if_neg hr]
      cases hst : (runSteps e 0 e.loop_num initSt).status with
      | running => exact absurd hst hr
      | completed => exact absurd hst hc
      | cancelled => exact Or.inr (Or.inl rfl)
      | failed => exact Or.inr (Or.inr rfl)
      | errored => exact absurd hst hloopne

set_option maxRecDepth 100000 in
/-- Witness for C3 at a fully healthy concrete run. -/
theorem C3_witness :
    (workerRun envA).txtRows = (workerRun envA).frames
    ∧ (workerRun envA).filesClosed = true := by
  have h := C3_terminal_persistence envA (by decide)
  exact ⟨h.1, h.2.2.1⟩

/-- C8: at every point of a run every frame's intensity vector has the length
of the wavelength axis, the frame count never exceeds `loop_num`, and the
delay values (index times dt) are strictly increasing in append order. -/
theorem C8_dataset_invariants (e : Env) (hs : 0 < e.step_size) :
    (∀ fuel ≤ e.loop_num,
      (∀ fr ∈ (runSteps e 0 fuel initSt).frames, fr.intensities.length = e.n_wl)
      ∧ (runSteps e 0 fuel initSt).frames.length ≤ e.loop_num
      ∧ ((runSteps e 0 fuel initSt).frames.map Frame.delay).Pairwise (· < ·))
    ∧ (∀ fr ∈ (workerRun e).frames, fr.intensities.length = e.n_wl)
    ∧ (workerRun e).frames.length ≤ e.loop_num
    ∧ ((workerRun e).frames.map Frame.delay).Pairwise (· < ·) := by
  have hdt : 0 < e.dt := by
    have hx : (0 : ℚ) < e.step_size := by exact_mod_cast hs
    have : e.dt = (e.step_size : ℚ) * (2000000000 / 299792458) := by
      unfold Env.dt calculate_dt
      ring
    rw [this]
    exact mul_pos hx (by norm_num)
  have key : ∀ st : LoopSt, ∀ n : ℕ, FramesOK e n st →
      (∀ fr ∈ st.frames, fr.intensities.length = e.n_wl)
      ∧ st.frames.length ≤ n
      ∧ (st.frames.map Frame.delay).Pairwise (· < ·) := by
    intro st n hok
    refine ⟨fun fr hfr => (hok.2.1 fr hfr).1, hok.1, ?_⟩
    rw [List.pairwise_map]
    refine List.Pairwise.imp_of_mem ?_ hok.2.2.1
    intro a b ha hb hab
    rw [(hok.2.1 a ha).2.2, (hok.2.1 b hb).2.2]
    exact mul_lt_mul_of_pos_right (by exact_mod_cast hab) hdt
  constructor
  · intro fuel hfuel
    have hok := runSteps_framesOK e fuel 0 initSt (initSt_framesOK e)
    obtain ⟨ha, hb, hcp⟩ := key _ (0 + fuel) hok
    exact ⟨ha, Nat.le_trans hb (by omega), hcp⟩
  · have hok := runSteps_framesOK e e.loop_num 0 initSt (initSt_framesOK e)
    obtain ⟨ha, hb, hcp⟩ := key _ (0 + e.loop_num) hok
    rw [workerRun, finishRun_frames]
    exact ⟨ha, Nat.le_trans hb (by omega), hcp⟩

set_option maxRecDepth 100000 in
/-- Witness for C8 at a concrete healthy run. -/
theorem C8_witness :
    0 < envA.step_size ∧ (workerRun envA).frames.length ≤ envA.loop_num := by
  exact ⟨by decide, (C8_dataset_invariants envA (by decide)).2.2.1⟩

/-- C10: a failed position query (I/O error or non-numeric reply) makes
`get_position` return `None` rather than raising; the engine then reports
the sentinel `-999999` for that step and, likewise, at run termination; the
step still records its frame, so the failure is never fatal. -/
theorem C10_position_failure (e : Env) (i : ℕ)
    (hg : ∀ j ≤ i, goodStep e j) (hi : i < e.loop_num)
    (hpos : get_position (e.posRaw i) = none) :
    posSentinel = -999999
    ∧ get_position none = none
    ∧ (∀ s : String, parseInt s = none → get_position (some s) = none)
    ∧ (workerRun e).posEvents[i]? = some posSentinel
    ∧ (workerRun e).frames[i]? = some (expFrame e i)
    ∧ ((workerRun e).status ≠ .errored → get_position e.finalPosRaw = none →
        (workerRun e).posEvents.getLast? = some posSentinel) := by
  obtain ⟨hfr, hpe⟩ := workerRun_at_good e i hg hi
  refine ⟨rfl, rfl, fun s hs => by simp [get_position, hs], ?_, hfr, ?_⟩
  · rw [hpe, hpos]
    rfl
  · intro hterm hfin
    have hloopne : (runSteps e 0 e.loop_num initSt).status ≠ .errored := by
      intro he
      exact hterm (by rw [workerRun]; exact (finishRun_errored_iff e _).mpr he)
    rw [workerRun, finishRun_posEvents_of_ne e _ hloopne, hfin]
    simp

set_option maxRecDepth 100000 in
/-- Witness for C10 at a concrete run whose stage answers `"ERR"` to every
position query and drops the final one. -/
theorem C10_witness :
    (workerRun envPosFail).posEvents[0]? = some posSentinel
    ∧ (workerRun envPosFail).frames[0]? = some (expFrame envPosFail 0) := by
  have h := C10_position_failure envPosFail 0 (by decide) (by decide) (by decide)
  exact ⟨h.2.2.2.1, h.2.2.2.2.1⟩

end FROG
